import Mathlib

/-!
Verification of the incremental analysis cache and dependency-resolution
engine of the polymer-analyzer repository, as a shallow embedding in Lean.

The embedding covers:
* `src/core/async-cyclic-transitive-promise-all.ts` — the cycle-tolerant
  transitive join (`AsyncCyclicTransitivePromiseAll`);
* `src/core/analyzer-cache-context.ts` — the analysis pipeline
  (`AnalyzerCacheContext`): load, parse, scan, import recursion, package
  scan, and context forking.

Asynchronous code is modelled by explicit state passing: a suspended await
on an unresolved `Deferred` is modelled as the absence of a recorded value,
and a computation that would block forever returns `none`.  The runtime is
single-threaded and cooperative, so compound cache operations that cross no
suspension point are modelled as single atomic state transitions.
-/

/-! ## Deferred and the cyclic transitive join -/

/-- Modelled from the spec: the `Deferred` class of `src/utils.ts` is not
among the provided sources.  Per the spec it is a single-assignment cell:
created empty, later completed exactly once with a value; completing an
already-completed cell is an error. -/
structure Deferred (α : Type) where
  value : Option α

/-- Modelled from the spec: completing a `Deferred`.  Completing a cell that
already holds a value fails (single assignment). -/
def Deferred.resolveCell {α : Type} (d : Deferred α) (v : α) :
    Except String (Deferred α) :=
  match d.value with
  | some _ => .error "Already resolved"
  | none => .ok ⟨some v⟩

/-- State of `AsyncCyclicTransitivePromiseAll`
(src/core/async-cyclic-transitive-promise-all.ts): the private map
`_deferreds` from keys to deferreds holding each key's dependency list. -/
structure AsyncCyclicTransitivePromiseAll (K : Type) where
  deferreds : K → Option (Deferred (List K))

namespace AsyncCyclicTransitivePromiseAll

variable {K : Type} [DecidableEq K]

/-- The empty instance: `new Map()`. -/
def empty : AsyncCyclicTransitivePromiseAll K := ⟨fun _ => none⟩

/-- Embeds `_getDeferredFor`: returns the deferred stored for `key`, or a
fresh pending one, storing it back into the map either way. -/
def getDeferredFor (s : AsyncCyclicTransitivePromiseAll K) (key : K) :
    AsyncCyclicTransitivePromiseAll K × Deferred (List K) :=
  let d := (s.deferreds key).getD ⟨none⟩
  (⟨fun k => if k = key then some d else s.deferreds k⟩, d)

/-- Embeds `resolve(key, deps)`:
`this._getDeferredFor(key).resolve(Array.from(deps))`.  Mutating the
deferred in place is modelled by writing the completed cell back into the
map. -/
def resolve (s : AsyncCyclicTransitivePromiseAll K) (key : K)
    (deps : List K) : Except String (AsyncCyclicTransitivePromiseAll K) :=
  let p := s.getDeferredFor key
  match p.2.resolveCell deps with
  | .error e => .error e
  | .ok d => .ok ⟨fun k => if k = key then some d else p.1.deferreds k⟩

/-- The dependency list recorded for a key, if its deferred has been
resolved.  Awaiting `_getDeferredFor(key).promise` completes exactly when
this is `some`; otherwise the await suspends forever (no further `resolve`
calls happen during a traversal of an already-recorded relation). -/
def resolvedDeps (s : AsyncCyclicTransitivePromiseAll K) (k : K) :
    Option (List K) :=
  match s.deferreds k with
  | some d => d.value
  | none => none

end AsyncCyclicTransitivePromiseAll

/-- Embeds `_transitiveAwait(key, visited)` together with the `for` loop over
the dependency list, defunctionalised into a worklist: `transAwait succs ks
visited` processes the keys of `ks` in order against the shared mutable
visited-set, exactly as the recursive awaits do.  `succs` is the state of the
deferred map (`resolvedDeps`): `none` means the deferred for that key is
pending, so the await would suspend forever, modelled by the overall result
`none`.  The returned set is the final visited-set and the returned list is
the order in which keys were newly visited (the `visited.add(key)` calls);
the subset proof carried in the result mirrors that the mutable set only
grows. -/
def transAwait {K : Type} [DecidableEq K] [Fintype K]
    (succs : K → Option (List K)) :
    (ks : List K) → (visited : Finset K) →
    Option {p : Finset K × List K // visited ⊆ p.1}
  | [], visited => some ⟨(visited, []), Finset.Subset.refl visited⟩
  | key :: rest, visited =>
    if hk : key ∈ visited then
      transAwait succs rest visited
    else
      match succs key with
      | none => none
      | some deps =>
        match transAwait succs deps (insert key visited) with
        | none => none
        | some ⟨(v1, t1), hv1⟩ =>
          match transAwait succs rest v1 with
          | none => none
          | some ⟨(v2, t2), hv2⟩ =>
            some ⟨(v2, key :: (t1 ++ t2)), fun x hx =>
              hv2 (hv1 (Finset.mem_insert_of_mem hx))⟩
termination_by ks visited => ((Fintype.card K - visited.card : Nat), ks.length)
decreasing_by
  · exact Prod.Lex.right _ (Nat.lt_succ_self _)
  · apply Prod.Lex.left
    have h1 : (insert key visited).card = visited.card + 1 :=
      Finset.card_insert_of_not_mem hk
    have h2 : (insert key visited).card ≤ Fintype.card K :=
      Finset.card_le_univ _
    omega
  · apply Prod.Lex.left
    have h1 : (insert key visited).card = visited.card + 1 :=
      Finset.card_insert_of_not_mem hk
    have h2 : (insert key visited).card ≤ v1.card := Finset.card_le_card hv1
    have h3 : v1.card ≤ Fintype.card K := Finset.card_le_univ _
    omega

/-- Embeds `promiseAllTransitive(key)`: a fresh visited-set (`new Set()`) is
allocated for each top-level call, and `_transitiveAwait(key, visited)` is
awaited.  `some (v, t)` means the call completes with final visited-set `v`
after newly visiting the keys `t` in order; `none` means it suspends forever
on a pending deferred. -/
def promiseAllTransitive {K : Type} [DecidableEq K] [Fintype K]
    (succs : K → Option (List K)) (key : K) :
    Option (Finset K × List K) :=
  (transAwait succs [key] ∅).map Subtype.val

/-- Reachability through the recorded dependency lists: the transitive
closure of the relation that `resolve` has recorded so far. -/
inductive Reaches {K : Type} (succs : K → Option (List K)) : K → K → Prop
  | refl (a : K) : Reaches succs a a
  | tail {a b c : K} {deps : List K} : Reaches succs a b →
      succs b = some deps → c ∈ deps → Reaches succs a c

/-- A concrete two-key instance whose recorded relation is the cycle
A maps to [B] and B maps to [A]. -/
def cyclicJoinExample : AsyncCyclicTransitivePromiseAll (Fin 2) :=
  ⟨fun k => if k = 0 then some ⟨some [1]⟩ else some ⟨some [0]⟩⟩

/-! ## Warnings and pipeline errors (src/warning/warning.ts shape) -/

/-- A position within a file (`start`/`end` of a source range). -/
structure Position where
  line : Nat
  column : Nat
deriving DecidableEq, Repr

/-- A source range; `startPos`/`endPos` embed the `start`/`end` fields. -/
structure SourceRange where
  file : String
  startPos : Position
  endPos : Position
deriving DecidableEq, Repr

inductive Severity
  | error
  | warning
  | info
deriving DecidableEq, Repr

structure Warning where
  code : String
  message : String
  sourceRange : SourceRange
  severity : Severity
deriving DecidableEq, Repr

/-- The failures thrown inside the pipeline: `NoKnownParserError` from
`_parseContents`, the load error from `load`, a `WarningCarryingException`,
or any other `Error` (carrying its message). -/
inductive AnalysisError
  | noKnownParser (fileType : String)
  | cantLoadUrl (url : String)
  | warningCarrying (w : Warning)
  | generic (msg : String)
deriving DecidableEq, Repr

def AnalysisError.isNoKnownParser : AnalysisError → Bool
  | .noKnownParser _ => true
  | _ => false

/-- The `e.message` text of each modelled failure.  The source spells the
load failure with a contraction; the parser message repeats the doubled
word of the source string verbatim. -/
def AnalysisError.message : AnalysisError → String
  | .noKnownParser t => "No parser for for file type " ++ t
  | .cantLoadUrl u => "Cannot load URL: " ++ u
  | .warningCarrying w => w.message
  | .generic m => m

/-! ## URL resolution and loading -/

/-- The pluggable `UrlResolver` collaborator. -/
structure UrlResolver where
  canResolve : String → Bool
  resolve : String → String

/-- Embeds `_resolveUrl(url)`: apply the resolver when present and willing,
otherwise return the URL unchanged. -/
def resolveUrl (resolver : Option UrlResolver) (url : String) : String :=
  match resolver with
  | some r => if r.canResolve url then r.resolve url else url
  | none => url

/-- The pluggable `UrlLoader` collaborator.  `loadContent` is the content a
successful `load(url)` yields; loadability is gated by `canLoad` (loader
failures beyond that gate do not bear on the claims settled here). -/
structure UrlLoader where
  canLoad : String → Bool
  loadContent : String → String

/-- Embeds `load(resolvedUrl, providedContents)`: throws when the loader
cannot load the URL; otherwise returns the provided contents when they are
neither null nor undefined (`providedContents == null` matches both,
modelled by `Option`), else consults the loader.  The Bool instruments
whether the loader was consulted. -/
def load (loader : UrlLoader) (resolvedUrl : String)
    (providedContents : Option String) :
    Except AnalysisError (String × Bool) :=
  if ¬ loader.canLoad resolvedUrl then .error (.cantLoadUrl resolvedUrl)
  else
    match providedContents with
    | none => .ok (loader.loadContent resolvedUrl, true)
    | some c => .ok (c, false)

/-! ## Scanned imports and the import loop of `_scan` -/

/-- The `ScannedImport` feature shape used by `_scanLocal`/`_scan`:
a `type`, the import `url`, a source range and an optional URL range. -/
structure ScannedImport where
  type : String
  url : String
  sourceRange : SourceRange
  urlSourceRange : Option SourceRange
deriving DecidableEq, Repr

/-- The warning pushed by the catch block of the import loop in `_scan`:
code `could-not-load`, the failure message, the import's URL range when
present (else its source range), severity ERROR. -/
def couldNotLoadWarning (imp : ScannedImport) (error : AnalysisError) :
    Warning :=
  { code := "could-not-load",
    message := "Unable to load import: " ++ error.message,
    sourceRange := imp.urlSourceRange.getD imp.sourceRange,
    severity := .error }

/-- Embeds the import loop of `_scan`: each pair is a discovered
eager import together with the outcome of its recursive `_scan` call (`none` =
the recursive scan succeeded).  On failure the catch block runs: the
source tests `error instanceof NoKnownParserError` but that branch body is
only a comment, so control falls through and the `could-not-load` warning
is pushed for every caught failure; no failure escapes the loop. -/
def scanImportsWarnings
    (outcomes : List (ScannedImport × Option AnalysisError))
    (warnings : List Warning) : List Warning :=
  outcomes.foldl
    (fun ws p =>
      match p.2 with
      | none => ws
      | some e => ws ++ [couldNotLoadWarning p.1 e])
    warnings

/-! ## Non-lazy import extraction (`_scanLocal`) -/

/-- A nested feature of a scanned document as `_scanLocal` sees it: either a
`ScannedImport` or some other feature kind (the `instanceof` downcast in
the source filter). -/
inductive NestedFeature
  | importFeature (imp : ScannedImport)
  | otherFeature (kind : String)
deriving DecidableEq, Repr

/-- Embeds the filter of `_scanLocal` (and the identical one in `_scan`):
`features.filter(e => e instanceof ScannedImport && e.type !==
'lazy-html-import')`, the downcast rendered as a `filterMap`. -/
def nonLazyImports (features : List NestedFeature) : List ScannedImport :=
  (features.filterMap fun f =>
    match f with
    | .importFeature imp => some imp
    | .otherFeature _ => none).filter
    fun imp => imp.type != "lazy-html-import"

/-- Embeds `importUrls = imports.map(i => this._resolveUrl(i.url))`. -/
def importUrlsOf (resolver : Option UrlResolver)
    (features : List NestedFeature) : List String :=
  (nonLazyImports features).map fun i => resolveUrl resolver i.url

/-- Modelled from the spec: `DependencyGraph.addDocument`
(src/core/dependency-graph.ts is not among the provided sources); per the
spec it records the non-lazy import URLs as the document's successors via
`recordSuccessors`, the `resolve` of the cyclic transitive join. -/
def addDocument (g : AsyncCyclicTransitivePromiseAll String) (url : String)
    (importUrls : List String) :
    Except String (AsyncCyclicTransitivePromiseAll String) :=
  g.resolve url importUrls

/-! ## Package-level scan (`_analyzeOrWarning`, `analyzePackage`) -/

/-- The outcome of the `this.analyze(url)` call inside `_analyzeOrWarning`:
a Document or a thrown failure.  `Doc` abstracts the resolved Document
type, whose construction is outside the modelled core. -/
inductive AnalyzeOutcome (Doc : Type)
  | ok (d : Doc)
  | thrown (e : AnalysisError)

/-- Embeds `_analyzeOrWarning(url)`: a success passes through; a thrown
`WarningCarryingException` yields its carried warning; any other failure
yields an `unable-to-analyze` warning at a zero range on the resolved
URL. -/
def analyzeOrWarning {Doc : Type} (resolver : Option UrlResolver)
    (url : String) (outcome : AnalyzeOutcome Doc) : Doc ⊕ Warning :=
  match outcome with
  | .ok d => .inl d
  | .thrown e =>
    match e with
    | .warningCarrying w => .inr w
    | _ =>
      .inr { code := "unable-to-analyze",
             message := "Unable to analyze file: " ++ e.message,
             sourceRange := { file := resolveUrl resolver url,
                              startPos := ⟨0, 0⟩, endPos := ⟨0, 0⟩ },
             severity := .error }

/-- Embeds the partition loop at the end of `analyzePackage`: Documents to
one list, Warnings to the other, in order. -/
def partitionDocsWarnings {Doc : Type} (results : List (Doc ⊕ Warning)) :
    List Doc × List Warning :=
  results.foldl
    (fun acc r =>
      match r with
      | .inl d => (acc.1 ++ [d], acc.2)
      | .inr w => (acc.1, acc.2 ++ [w]))
    ([], [])

/-- Embeds `analyzePackage` from the per-file analysis outcomes on: each
listed file is analyzed independently through `_analyzeOrWarning` and the
results are partitioned into Documents and Warnings.  (The directory
listing and extension filtering are upstream of the modelled loop.) -/
def analyzePackageOutcomes {Doc : Type} (resolver : Option UrlResolver)
    (files : List (String × AnalyzeOutcome Doc)) :
    List Doc × List Warning :=
  partitionDocsWarnings (files.map fun p => analyzeOrWarning resolver p.1 p.2)

/-! ## The Analysis Cache and context forking -/

/-- Modelled from the spec: the `AnalysisCache`
(src/core/analysis-cache.ts is not among the provided sources).  One keyed
sub-cache per pipeline phase plus the dependency graph's edge set; entry
values are opaque identifiers here. -/
structure AnalysisCache where
  parsedDocumentPromises : List (String × Nat)
  scannedDocumentPromises : List (String × Nat)
  dependenciesScannedPromises : List (String × Nat)
  analyzedDocumentPromises : List (String × Nat)
  graphEdges : List (String × List String)
deriving DecidableEq, Repr

/-- `new AnalysisCache()`: every sub-cache empty. -/
def AnalysisCache.emptyCache : AnalysisCache := ⟨[], [], [], [], []⟩

/-- Modelled from the spec: one step of the reverse-reachability traversal —
add every node with an edge into the current set. -/
def reverseStep (edges : List (String × List String)) (acc : List String) :
    List String :=
  acc ++ (((edges.filter fun p => p.2.any fun d => acc.contains d).map
    Prod.fst).filter fun u => !acc.contains u)

/-- Modelled from the spec: the invalidation set of a change — the changed
URLs plus every URL transitively importing one of them, computed by
iterating `reverseStep` to a fixpoint (at most one round per edge). -/
def invalidationSet (edges : List (String × List String))
    (urls : List String) : List String :=
  (List.range edges.length).foldl (fun acc _ => reverseStep edges acc) urls

/-- Modelled from the spec: `AnalysisCache.invalidate(urls)` — a new cache
keeping only the entries whose keys are outside the invalidation set, with
the graph forgetting the invalidated nodes; untouched entries carry over. -/
def AnalysisCache.invalidate (c : AnalysisCache) (urls : List String) :
    AnalysisCache :=
  let bad := invalidationSet c.graphEdges urls
  { parsedDocumentPromises :=
      c.parsedDocumentPromises.filter fun p => !bad.contains p.1,
    scannedDocumentPromises :=
      c.scannedDocumentPromises.filter fun p => !bad.contains p.1,
    dependenciesScannedPromises :=
      c.dependenciesScannedPromises.filter fun p => !bad.contains p.1,
    analyzedDocumentPromises :=
      c.analyzedDocumentPromises.filter fun p => !bad.contains p.1,
    graphEdges := c.graphEdges.filter fun p => !bad.contains p.1 }

/-- The `AnalyzerCacheContext` state: the pipeline configuration (parser
and scanner tables modelled by their registered keys, the lazy-edge map,
loader and resolver), the current `AnalysisCache`, the telemetry tracker
(an opaque identifier, so that sharing across forks is visible), and the
generation counter. -/
structure AnalyzerCacheContext where
  parsers : List String
  lazyEdges : Option (List (String × List String))
  scanners : List String
  loader : UrlLoader
  resolver : Option UrlResolver
  cache : AnalysisCache
  telemetryTracker : Nat
  generation : Nat

/-- Embeds `_fork(cache)`: a copy constructed from the same configuration
options (held by reference), with the telemetry tracker carried over, the
given cache installed, and the generation counter one greater. -/
def AnalyzerCacheContext.fork (ctx : AnalyzerCacheContext)
    (cache : AnalysisCache) : AnalyzerCacheContext :=
  { parsers := ctx.parsers, lazyEdges := ctx.lazyEdges,
    scanners := ctx.scanners, loader := ctx.loader,
    resolver := ctx.resolver, cache := cache,
    telemetryTracker := ctx.telemetryTracker,
    generation := ctx.generation + 1 }

/-- Embeds `filesChanged(urls)`: fork with the invalidated cache. -/
def AnalyzerCacheContext.filesChanged (ctx : AnalyzerCacheContext)
    (urls : List String) : AnalyzerCacheContext :=
  ctx.fork (ctx.cache.invalidate (urls.map fun url => resolveUrl ctx.resolver url))

/-- Embeds `clearCaches()`: fork with a brand-new empty cache. -/
def AnalyzerCacheContext.clearCaches (ctx : AnalyzerCacheContext) :
    AnalyzerCacheContext :=
  ctx.fork AnalysisCache.emptyCache

/-! ## The Keyed Memoization Cache -/

/-- Modelled from the spec: the Keyed Memoization Cache (`AsyncWorkCache`,
src/core/async-work-cache.ts, is not among the provided sources).  The map
stores the single in-flight-or-settled computation handle per key.  The
runtime is single-threaded and cooperative and `getOrCompute` registers
the handle before any suspension point, so the check-then-insert is one
atomic step; two concurrent requests are two such steps in sequence. -/
structure AsyncWorkCache (K V : Type) where
  keyToResultMap : K → Option V

/-- Modelled from the spec: `getOrCompute(key, compute)` — return the
registered computation handle when one exists, else register the freshly
created one before yielding.  The Bool instruments whether the compute
function was invoked. -/
def AsyncWorkCache.getOrCompute {K V : Type} [DecidableEq K]
    (c : AsyncWorkCache K V) (key : K) (compute : V) :
    AsyncWorkCache K V × V × Bool :=
  match c.keyToResultMap key with
  | some v => (c, v, false)
  | none =>
    (⟨fun k => if k = key then some compute else c.keyToResultMap k⟩,
      compute, true)

/-! ## The memoized analysis pipeline (`analyze` through `_parse`) -/

structure ParsedDoc where
  fileType : String
  contents : String
  url : String
deriving DecidableEq, Repr

structure ScannedDoc where
  parsed : ParsedDoc
  warnings : List Warning
deriving DecidableEq, Repr

structure Document where
  scanned : ScannedDoc
deriving DecidableEq, Repr

/-- Models `path.extname(resolvedUrl).substring(1)`: the text after the
final dot of the final path segment; empty when that segment has no dot or
only a leading one. -/
def extOf (url : String) : String :=
  let base := (url.splitOn "/").getLastD ""
  let parts := base.splitOn "."
  if parts.length ≤ 1 then ""
  else if parts.length = 2 ∧ parts.headD "" = "" then ""
  else parts.getLastD ""

/-- Embeds `_parseContents(type, contents, url)`: throws
`NoKnownParserError` when no parser is registered for the file type,
otherwise parses.  The registered parsers are pluggable external
collaborators; a registered parser is modelled as succeeding with a
document wrapping its inputs (parse failures of registered parsers do not
bear on the claims settled with this pipeline). -/
def parseContents (parserExtensions : List String) (fileType : String)
    (contents : String) (url : String) : Except AnalysisError ParsedDoc :=
  if parserExtensions.contains fileType then .ok ⟨fileType, contents, url⟩
  else .error (.noKnownParser fileType)

/-- The state threaded through an `analyze` call: the per-phase memoization
maps of one `AnalysisCache` generation (keyed by resolved URL, storing the
settled result — failures are cached too) plus the configuration.  Feature
scanning, inline documents and import edges are modelled separately
(`scanImportsWarnings`, `importUrlsOf`); this pipeline covers documents
whose scan discovers no imports, for which the import loop is empty and
the dependency-graph readiness wait completes immediately. -/
structure PipelineState where
  loader : UrlLoader
  resolver : Option UrlResolver
  parserExtensions : List String
  parsedDocs : List (String × Except AnalysisError ParsedDoc)
  scannedDocs : List (String × Except AnalysisError ScannedDoc)
  dependenciesScanned : List (String × Except AnalysisError ScannedDoc)
  analyzedDocs : List (String × Except AnalysisError Document)

/-- First entry stored under a key, as a JS `Map` lookup. -/
def lookupEntry {V : Type} (entries : List (String × V)) (key : String) :
    Option V :=
  (entries.find? fun p => p.1 == key).map Prod.snd

/-- Embeds `_parse(resolvedUrl, providedContents)`:
`parsedDocumentPromises.getOrCompute(resolvedUrl, ...)` around `load` and
`_parseContents`.  The cache key is the resolved URL alone; the provided
contents are consulted only when the computation actually runs. -/
def parsePhase (st : PipelineState) (resolvedUrl : String)
    (providedContents : Option String) :
    PipelineState × Except AnalysisError ParsedDoc :=
  match lookupEntry st.parsedDocs resolvedUrl with
  | some r => (st, r)
  | none =>
    let r : Except AnalysisError ParsedDoc :=
      match load st.loader resolvedUrl providedContents with
      | .error e => .error e
      | .ok p =>
        parseContents st.parserExtensions (extOf resolvedUrl) p.1 resolvedUrl
    ({ st with parsedDocs := st.parsedDocs ++ [(resolvedUrl, r)] }, r)

/-- Embeds `_scanLocal(resolvedUrl, contents)`:
`scannedDocumentPromises.getOrCompute(resolvedUrl, ...)` around `_parse`
and `_scanDocument` (feature scanning abstracted to an import-free
document, whose dependency-graph registration records no edges). -/
def scanLocalPhase (st : PipelineState) (resolvedUrl : String)
    (providedContents : Option String) :
    PipelineState × Except AnalysisError ScannedDoc :=
  match lookupEntry st.scannedDocs resolvedUrl with
  | some r => (st, r)
  | none =>
    match parsePhase st resolvedUrl providedContents with
    | (st1, .error e) =>
      ({ st1 with scannedDocs := st1.scannedDocs ++ [(resolvedUrl, .error e)] },
        .error e)
    | (st1, .ok p) =>
      ({ st1 with
          scannedDocs := st1.scannedDocs ++ [(resolvedUrl, .ok ⟨p, []⟩)] },
        .ok ⟨p, []⟩)

/-- Embeds `_scan(resolvedUrl, contents)`:
`dependenciesScannedPromises.getOrCompute(resolvedUrl, ...)` around
`_scanLocal`; for an import-free document the import loop body never runs
and the readiness wait completes at once. -/
def scanPhase (st : PipelineState) (resolvedUrl : String)
    (providedContents : Option String) :
    PipelineState × Except AnalysisError ScannedDoc :=
  match lookupEntry st.dependenciesScanned resolvedUrl with
  | some r => (st, r)
  | none =>
    match scanLocalPhase st resolvedUrl providedContents with
    | (st1, r) =>
      ({ st1 with
          dependenciesScanned := st1.dependenciesScanned ++ [(resolvedUrl, r)] },
        r)

/-- Embeds `analyze(url, contents)`: resolve the URL, then memoize the
whole computation in `analyzedDocumentPromises`, keyed by the resolved URL
alone — the explicit contents are captured by the compute closure and are
no part of the key. -/
def analyzeFn (st : PipelineState) (url : String) (contents : Option String) :
    PipelineState × Except AnalysisError Document :=
  match lookupEntry st.analyzedDocs (resolveUrl st.resolver url) with
  | some r => (st, r)
  | none =>
    match scanPhase st (resolveUrl st.resolver url) contents with
    | (st1, .error e) =>
      ({ st1 with analyzedDocs := st1.analyzedDocs ++
          [(resolveUrl st.resolver url, .error e)] },
        .error e)
    | (st1, .ok sd) =>
      ({ st1 with analyzedDocs := st1.analyzedDocs ++
          [(resolveUrl st.resolver url, .ok ⟨sd⟩)] },
        .ok ⟨sd⟩)

/-- A concrete pipeline state for witnesses: loads everything from an
in-memory disk, no resolver, the default parser extensions. -/
def samplePipelineState : PipelineState :=
  { loader := ⟨fun _ => true, fun _ => "disk contents"⟩,
    resolver := none,
    parserExtensions := ["html", "js", "css", "json"],
    parsedDocs := [], scannedDocs := [], dependenciesScanned := [],
    analyzedDocs := [] }

/-- A concrete import for witnesses: an eager import of a file with an
unregistered extension. -/
def sampleImport : ScannedImport :=
  { type := "html-import",
    url := "components/widget.foo",
    sourceRange := ⟨"index.html", ⟨3, 4⟩, ⟨3, 40⟩⟩,
    urlSourceRange := some ⟨"index.html", ⟨3, 10⟩, ⟨3, 36⟩⟩ }

/-- A concrete lazy import for witnesses. -/
def sampleLazyImport : ScannedImport :=
  { type := "lazy-html-import",
    url := "components/later.html",
    sourceRange := ⟨"index.html", ⟨5, 4⟩, ⟨5, 44⟩⟩,
    urlSourceRange := some ⟨"index.html", ⟨5, 10⟩, ⟨5, 40⟩⟩ }

/-- A concrete structured warning, as carried by a
`WarningCarryingException` out of a parser. -/
def sampleCarriedWarning : Warning :=
  { code := "parse-error",
    message := "unexpected token",
    sourceRange := ⟨"broken.html", ⟨2, 1⟩, ⟨2, 5⟩⟩,
    severity := .error }

theorem Reaches.trans {K : Type} {succs : K → Option (List K)} {a b c : K}
    (h1 : Reaches succs a b) (h2 : Reaches succs b c) : Reaches succs a c := by
  induction h2 with
  | refl => exact h1
  | tail _ hs hm ih => exact .tail ih hs hm

/-- Every fact the traversal establishes about a successful run: the final
visited-set is the initial one plus the newly-visited keys, every worklist
key ends up visited, no key is newly visited twice, newly visited keys were
unvisited with recorded successors all of which end up visited, and every
newly visited key is reachable from the worklist. -/
theorem transAwait_spec {K : Type} [DecidableEq K] [Fintype K]
    (succs : K → Option (List K)) :
    ∀ (ks : List K) (visited : Finset K) (v : Finset K) (t : List K)
      (hvp : visited ⊆ (v, t).1),
      transAwait succs ks visited = some ⟨(v, t), hvp⟩ →
      v = visited ∪ t.toFinset ∧
      (∀ k ∈ ks, k ∈ v) ∧
      t.Nodup ∧
      (∀ x ∈ t, x ∉ visited) ∧
      (∀ x ∈ t, ∃ ds, succs x = some ds ∧ ∀ d ∈ ds, d ∈ v) ∧
      (∀ x ∈ t, ∃ a ∈ ks, Reaches succs a x) := by
  intro ks visited
  induction ks, visited using transAwait.induct succs with
  | case1 visited =>
    intro v t hvp hp
    simp only [transAwait, Option.some.injEq, Subtype.mk.injEq,
      Prod.mk.injEq] at hp
    obtain ⟨rfl, rfl⟩ := hp
    refine ⟨by simp, by simp, List.nodup_nil, by simp, by simp, by simp⟩
  | case2 key rest visited hk IH =>
    intro v t hvp hp
    simp only [transAwait, hk, dite_true] at hp
    obtain ⟨A, B, C, D, E, F⟩ := IH v t hvp hp
    refine ⟨A, ?_, C, D, E, ?_⟩
    · intro k hkm
      rcases List.mem_cons.mp hkm with rfl | hkm
      · exact hvp hk
      · exact B k hkm
    · intro x hx
      obtain ⟨a, ha, hr⟩ := F x hx
      exact ⟨a, List.mem_cons_of_mem _ ha, hr⟩
  | case3 key rest visited hk hnone =>
    intro v t hvp hp
    simp [transAwait, hk, hnone] at hp
  | case4 key rest visited hk deps hsucc hd1 IH1 =>
    intro v t hvp hp
    simp [transAwait, hk, hsucc, hd1] at hp
  | case5 key rest visited hk deps hsucc v1 t1 hv1 hd1 hd2 IH1 IH2 =>
    intro v t hvp hp
    simp [transAwait, hk, hsucc, hd1, hd2] at hp
  | case6 key rest visited hk deps hsucc v1 t1 hv1 hd1 v2 t2 hv2 hd2 IH1 IH2 =>
    intro v t hvp hp
    simp only [transAwait, hk, dite_false, hsucc, hd1, hd2,
      Option.some.injEq, Subtype.mk.injEq, Prod.mk.injEq] at hp
    obtain ⟨rfl, rfl⟩ := hp
    obtain ⟨A1, B1, C1, D1, E1, F1⟩ := IH1 v1 t1 hv1 hd1
    obtain ⟨A2, B2, C2, D2, E2, F2⟩ := IH2 v2 t2 hv2 hd2
    have hkv1 : key ∈ v1 := hv1 (Finset.mem_insert_self key visited)
    have ht1v1 : ∀ x ∈ t1, x ∈ v1 := by
      intro x hx
      rw [A1]
      exact Finset.mem_union_right _ (List.mem_toFinset.mpr hx)
    refine ⟨?_, ?_, ?_, ?_, ?_, ?_⟩
    · rw [A2, A1]
      ext x
      simp only [Finset.mem_union, Finset.mem_insert, List.toFinset_cons,
        List.toFinset_append, List.mem_toFinset]
      tauto
    · intro k hkm
      rcases List.mem_cons.mp hkm with rfl | hkm
      · exact hv2 hkv1
      · exact B2 k hkm
    · refine List.Nodup.cons ?_ (C1.append C2 ?_)
      · intro hmem
        rcases List.mem_append.mp hmem with h1 | h2
        · exact D1 key h1 (Finset.mem_insert_self key visited)
        · exact D2 key h2 hkv1
      · intro x hx1 hx2
        exact D2 x hx2 (ht1v1 x hx1)
    · intro x hx
      rcases List.mem_cons.mp hx with rfl | hx
      · exact hk
      · rcases List.mem_append.mp hx with h1 | h2
        · exact fun hv => D1 x h1 (Finset.mem_insert_of_mem hv)
        · exact fun hv => D2 x h2 (hv1 (Finset.mem_insert_of_mem hv))
    · intro x hx
      rcases List.mem_cons.mp hx with rfl | hx
      · exact ⟨deps, hsucc, fun d hd => hv2 (B1 d hd)⟩
      · rcases List.mem_append.mp hx with h1 | h2
        · obtain ⟨ds, hds, hsub⟩ := E1 x h1
          exact ⟨ds, hds, fun d hd => hv2 (hsub d hd)⟩
        · exact E2 x h2
    · intro x hx
      rcases List.mem_cons.mp hx with rfl | hx
      · exact ⟨x, List.mem_cons_self _ _, .refl x⟩
      · rcases List.mem_append.mp hx with h1 | h2
        · obtain ⟨a, ha, hr⟩ := F1 x h1
          exact ⟨key, List.mem_cons_self _ _,
            Reaches.trans (.tail (.refl key) hsucc ha) hr⟩
        · obtain ⟨a, ha, hr⟩ := F2 x h2
          exact ⟨a, List.mem_cons_of_mem _ ha, hr⟩

/-- If every key reachable from the worklist has a recorded dependency list,
the traversal completes (never suspends on a pending deferred). -/
theorem transAwait_isSome {K : Type} [DecidableEq K] [Fintype K]
    (succs : K → Option (List K)) :
    ∀ (ks : List K) (visited : Finset K),
      (∀ k, (∃ a ∈ ks, Reaches succs a k) → (succs k).isSome) →
      (transAwait succs ks visited).isSome := by
  intro ks visited
  induction ks, visited using transAwait.induct succs with
  | case1 visited =>
    intro _
    simp [transAwait]
  | case2 key rest visited hk IH =>
    intro h
    simp only [transAwait, hk, dite_true]
    refine IH ?_
    intro k hkr
    obtain ⟨a, ha, hr⟩ := hkr
    exact h k ⟨a, List.mem_cons_of_mem _ ha, hr⟩
  | case3 key rest visited hk hnone =>
    intro h
    have := h key ⟨key, List.mem_cons_self _ _, .refl key⟩
    rw [hnone] at this
    simp at this
  | case4 key rest visited hk deps hsucc hd1 IH1 =>
    intro h
    have := IH1 ?_
    · rw [hd1] at this
      simp at this
    · intro k hkr
      obtain ⟨a, ha, hr⟩ := hkr
      exact h k ⟨key, List.mem_cons_self _ _,
        Reaches.trans (.tail (.refl key) hsucc ha) hr⟩
  | case5 key rest visited hk deps hsucc v1 t1 hv1 hd1 hd2 IH1 IH2 =>
    intro h
    have := IH2 ?_
    · rw [hd2] at this
      simp at this
    · intro k hkr
      obtain ⟨a, ha, hr⟩ := hkr
      exact h k ⟨a, List.mem_cons_of_mem _ ha, hr⟩
  | case6 key rest visited hk deps hsucc v1 t1 hv1 hd1 v2 t2 hv2 hd2 IH1 IH2 =>
    intro _
    simp [transAwait, hk, hsucc, hd1, hd2]

/-- Claim C1: for every dependency relation recorded via `resolve`,
including cyclic ones, `promiseAllTransitive(key)` terminates (returns
`some`, never suspends) once every key reachable from `key` has had its
successors recorded; the fresh per-call visited-set makes a second arrival
at a visited key short-circuit, so the newly-visited trace has no
duplicates and covers each reachable key exactly once. -/
theorem promiseAllTransitive_terminates_visits_once {K : Type}
    [DecidableEq K] [Fintype K]
    (s : AsyncCyclicTransitivePromiseAll K) (key : K)
    (hrec : ∀ k, Reaches s.resolvedDeps key k → (s.resolvedDeps k).isSome) :
    ∃ v t, promiseAllTransitive s.resolvedDeps key = some (v, t) ∧
      t.Nodup ∧ (∀ x, x ∈ t ↔ Reaches s.resolvedDeps key x) := by
  have hsome := transAwait_isSome s.resolvedDeps [key] ∅ (by
    intro k hkr
    obtain ⟨a, ha, hr⟩ := hkr
    simp only [List.mem_singleton] at ha
    subst ha
    exact hrec k hr)
  obtain ⟨⟨⟨v, t⟩, hsub⟩, heq⟩ := Option.isSome_iff_exists.mp hsome
  obtain ⟨A, B, C, D, E, F⟩ := transAwait_spec s.resolvedDeps [key] ∅ v t hsub heq
  refine ⟨v, t, by simp [promiseAllTransitive, heq], C, ?_⟩
  have hvt : v = t.toFinset := by simpa using A
  have hkey : key ∈ t := by
    have := B key (List.mem_singleton_self key)
    rwa [hvt, List.mem_toFinset] at this
  have hclosed : ∀ y ∈ t, ∀ ds, s.resolvedDeps y = some ds →
      ∀ d ∈ ds, d ∈ t := by
    intro y hy ds hds d hd
    obtain ⟨ds', hds', hsub'⟩ := E y hy
    rw [hds] at hds'
    injection hds' with h'
    subst h'
    have := hsub' d hd
    rwa [hvt, List.mem_toFinset] at this
  intro x
  constructor
  · intro hx
    obtain ⟨a, ha, hr⟩ := F x hx
    simp only [List.mem_singleton] at ha
    subst ha
    exact hr
  · intro hr
    induction hr with
    | refl => exact hkey
    | tail h1 hs hm ih => exact hclosed _ ih _ hs _ hm

/-- Witness for C1 at the cyclic relation A maps to [B], B maps to [A]:
both hypotheses hold concretely and the join from A terminates visiting
each of the two keys exactly once. -/
theorem promiseAllTransitive_terminates_visits_once_witness :
    ∃ v t, promiseAllTransitive cyclicJoinExample.resolvedDeps 0 = some (v, t) ∧
      t.Nodup ∧ (∀ x, x ∈ t ↔ Reaches cyclicJoinExample.resolvedDeps 0 x) :=
  promiseAllTransitive_terminates_visits_once cyclicJoinExample 0 (by
    intro k _
    fin_cases k <;> rfl)

/-! ## Claim C2: the Keyed Memoization Cache computes at most once -/

/-- Claim C2: for any key of a Keyed Memoization Cache instance, the
computation runs at most once: of two requests for the same key issued
before either settles, the first invokes the computation and registers the
handle, the second does not invoke its computation and receives the
identical handle, so both observe the same eventual result or failure. -/
theorem getOrCompute_computes_once {K V : Type} [DecidableEq K]
    (c : AsyncWorkCache K V) (key : K) (compute1 compute2 : V)
    (h : c.keyToResultMap key = none) :
    (c.getOrCompute key compute1).2.2 = true ∧
    ((c.getOrCompute key compute1).1.getOrCompute key compute2).2.2 = false ∧
    ((c.getOrCompute key compute1).1.getOrCompute key compute2).2.1 =
      (c.getOrCompute key compute1).2.1 := by
  simp [AsyncWorkCache.getOrCompute, h]

/-- Witness for C2 at a concrete empty cache and key. -/
theorem getOrCompute_computes_once_witness :
    (((AsyncWorkCache.mk fun _ => none : AsyncWorkCache Nat Nat)).getOrCompute
      0 5).2.2 = true ∧
    ((((AsyncWorkCache.mk fun _ => none : AsyncWorkCache Nat Nat)).getOrCompute
      0 5).1.getOrCompute 0 6).2.2 = false ∧
    ((((AsyncWorkCache.mk fun _ => none : AsyncWorkCache Nat Nat)).getOrCompute
      0 5).1.getOrCompute 0 6).2.1 =
      (((AsyncWorkCache.mk fun _ => none : AsyncWorkCache Nat Nat)).getOrCompute
        0 5).2.1 :=
  getOrCompute_computes_once ⟨fun _ => none⟩ 0 5 6 rfl

/-! ## Claim C5: recording successors twice for one key fails -/

/-- Claim C5: within one Cyclic Transitive Join instance, recording
successors (`resolve`) is at-most-once per key — a second `resolve` for the
same key hits the single-assignment guard of the completed deferred and
fails. -/
theorem resolveTwiceFails {K : Type} [DecidableEq K]
    (s : AsyncCyclicTransitivePromiseAll K) (key : K) (deps1 deps2 : List K)
    (s1 : AsyncCyclicTransitivePromiseAll K)
    (h : s.resolve key deps1 = .ok s1) :
    s1.resolve key deps2 = .error "Already resolved" := by
  rcases hv : ((s.deferreds key).getD ⟨none⟩).value with _ | v
  · simp only [AsyncCyclicTransitivePromiseAll.resolve,
      AsyncCyclicTransitivePromiseAll.getDeferredFor,
      Deferred.resolveCell, hv, Except.ok.injEq] at h
    subst h
    simp [AsyncCyclicTransitivePromiseAll.resolve,
      AsyncCyclicTransitivePromiseAll.getDeferredFor, Deferred.resolveCell]
  · simp [AsyncCyclicTransitivePromiseAll.resolve,
      AsyncCyclicTransitivePromiseAll.getDeferredFor,
      Deferred.resolveCell, hv] at h

/-- Witness for C5: on a fresh instance, recording key 0 once succeeds and
recording it again fails. -/
theorem resolveTwiceFails_witness :
    (AsyncCyclicTransitivePromiseAll.empty.resolve (0 : Nat) [1]).bind
      (fun s1 => s1.resolve 0 [2]) = .error "Already resolved" := by
  rcases hres : AsyncCyclicTransitivePromiseAll.empty.resolve (0 : Nat) [1]
    with e | s1
  · exact absurd hres (by
      simp [AsyncCyclicTransitivePromiseAll.resolve,
        AsyncCyclicTransitivePromiseAll.getDeferredFor,
        AsyncCyclicTransitivePromiseAll.empty, Deferred.resolveCell])
  · simpa [Except.bind] using resolveTwiceFails _ 0 [1] [2] s1 hres

/-! ## Claims C3 and C4: the import loop of `_scan` -/

/-- The import loop appends exactly one `could-not-load` warning per
failing import, in order, regardless of the kind of failure. -/
theorem scanImportsWarnings_eq
    (outcomes : List (ScannedImport × Option AnalysisError)) :
    ∀ ws, scanImportsWarnings outcomes ws =
      ws ++ outcomes.filterMap
        fun p => p.2.map fun e => couldNotLoadWarning p.1 e := by
  induction outcomes with
  | nil => intro ws; simp [scanImportsWarnings]
  | cons p rest ih =>
    intro ws
    rcases p with ⟨imp, o⟩
    cases o with
    | none =>
      show scanImportsWarnings rest ws = _
      rw [ih]
      simp [List.filterMap_cons]
    | some e =>
      show scanImportsWarnings rest (ws ++ [couldNotLoadWarning imp e]) = _
      rw [ih]
      simp [List.filterMap_cons]

/-- Claim C3 (demonstrating the code's actual behaviour): for an
eager import whose recursive scan throws `NoKnownParserError`, the catch block
of `_scan` still pushes a `could-not-load` warning onto the importing
document — the `instanceof NoKnownParserError` branch body is empty, so
the failure is not swallowed; the importer's scan does complete. -/
theorem noKnownParserImportStillWarns :
    scanImportsWarnings [(sampleImport, some (.noKnownParser "foo"))] [] =
      [couldNotLoadWarning sampleImport (.noKnownParser "foo")] ∧
    (couldNotLoadWarning sampleImport (.noKnownParser "foo")).code =
      "could-not-load" :=
  ⟨rfl, rfl⟩

/-- Claim C4: a failing recursive import scan is recovered into a
`could-not-load` Warning with severity ERROR at the import's URL range
(falling back to its source range), attached to the importing document;
the loop handles every import, so sibling imports are not aborted and the
importer's own scan completes (the loop is total and no failure escapes
it). -/
theorem importFailureIsolated
    (outcomes : List (ScannedImport × Option AnalysisError))
    (imp : ScannedImport) (e : AnalysisError)
    (hmem : (imp, some e) ∈ outcomes) (hne : e.isNoKnownParser = false) :
    couldNotLoadWarning imp e ∈ scanImportsWarnings outcomes [] ∧
    (couldNotLoadWarning imp e).code = "could-not-load" ∧
    (couldNotLoadWarning imp e).severity = .error ∧
    (couldNotLoadWarning imp e).sourceRange =
      imp.urlSourceRange.getD imp.sourceRange ∧
    scanImportsWarnings outcomes [] =
      outcomes.filterMap
        (fun p => p.2.map fun er => couldNotLoadWarning p.1 er) := by
  have heq := scanImportsWarnings_eq outcomes []
  rw [List.nil_append] at heq
  refine ⟨?_, rfl, rfl, rfl, heq⟩
  rw [heq]
  exact List.mem_filterMap.mpr ⟨(imp, some e), hmem, rfl⟩

/-- Witness for C4: a load failure among three sibling imports yields its
warning. -/
theorem importFailureIsolated_witness :
    couldNotLoadWarning sampleImport (.generic "ENOENT missing.html") ∈
      scanImportsWarnings
        [(sampleImport, some (.generic "ENOENT missing.html")),
         (sampleLazyImport, none)] [] :=
  (importFailureIsolated
    [(sampleImport, some (.generic "ENOENT missing.html")),
     (sampleLazyImport, none)]
    sampleImport (.generic "ENOENT missing.html") (by decide) rfl).1

/-! ## Claim C6: only non-lazy imports become dependency edges -/

/-- Claim C6: the import URLs registered with the Dependency Graph via
`addDocument` are exactly the resolved URLs of the `ScannedImport` features
whose type is not `lazy-html-import`; a lazy import is never among the
recorded successors, so the readiness join for the importer never waits on
it. -/
theorem nonLazyEdgesRegistered (resolver : Option UrlResolver)
    (g : AsyncCyclicTransitivePromiseAll String) (url : String)
    (features : List NestedFeature)
    (hfresh : g.deferreds url = none) :
    ∃ g', addDocument g url (importUrlsOf resolver features) = .ok g' ∧
      g'.resolvedDeps url = some (importUrlsOf resolver features) ∧
      ∀ u, u ∈ importUrlsOf resolver features ↔
        ∃ imp, NestedFeature.importFeature imp ∈ features ∧
          imp.type ≠ "lazy-html-import" ∧ u = resolveUrl resolver imp.url := by
  have hmain : ∀ u, u ∈ importUrlsOf resolver features ↔
      ∃ imp, NestedFeature.importFeature imp ∈ features ∧
        imp.type ≠ "lazy-html-import" ∧ u = resolveUrl resolver imp.url := by
    intro u
    simp only [importUrlsOf, nonLazyImports, List.mem_map, List.mem_filter,
      List.mem_filterMap, bne_iff_ne, ne_eq]
    constructor
    · rintro ⟨imp, ⟨⟨f, hf, hmatch⟩, hty⟩, rfl⟩
      cases f with
      | importFeature i =>
        simp only [Option.some.injEq] at hmatch
        subst hmatch
        exact ⟨i, hf, hty, rfl⟩
      | otherFeature k => simp at hmatch
    · rintro ⟨imp, hmem, hty, rfl⟩
      exact ⟨imp, ⟨⟨.importFeature imp, hmem, rfl⟩, hty⟩, rfl⟩
  rcases hres : addDocument g url (importUrlsOf resolver features) with e | g'
  · exact absurd hres (by
      simp [addDocument, AsyncCyclicTransitivePromiseAll.resolve,
        AsyncCyclicTransitivePromiseAll.getDeferredFor,
        Deferred.resolveCell, hfresh])
  · have h2 : g'.resolvedDeps url = some (importUrlsOf resolver features) := by
      have hres2 := hres
      simp only [addDocument, AsyncCyclicTransitivePromiseAll.resolve,
        AsyncCyclicTransitivePromiseAll.getDeferredFor,
        Deferred.resolveCell, hfresh, Option.getD_none,
        Except.ok.injEq] at hres2
      subst hres2
      simp [AsyncCyclicTransitivePromiseAll.resolvedDeps]
    exact ⟨g', rfl, h2, hmain⟩

/-- Witness for C6: one eager import, one lazy import and one non-import
feature on a fresh graph. -/
theorem nonLazyEdgesRegistered_witness :
    ∃ g', addDocument AsyncCyclicTransitivePromiseAll.empty "index.html"
        (importUrlsOf none [.importFeature sampleImport,
          .importFeature sampleLazyImport, .otherFeature "element"]) =
        .ok g' ∧
      g'.resolvedDeps "index.html" = some (importUrlsOf none
        [.importFeature sampleImport, .importFeature sampleLazyImport,
         .otherFeature "element"]) ∧
      ∀ u, u ∈ importUrlsOf none [.importFeature sampleImport,
          .importFeature sampleLazyImport, .otherFeature "element"] ↔
        ∃ imp, NestedFeature.importFeature imp ∈
            [NestedFeature.importFeature sampleImport,
             NestedFeature.importFeature sampleLazyImport,
             NestedFeature.otherFeature "element"] ∧
          imp.type ≠ "lazy-html-import" ∧ u = resolveUrl none imp.url :=
  nonLazyEdgesRegistered none AsyncCyclicTransitivePromiseAll.empty
    "index.html" [.importFeature sampleImport,
      .importFeature sampleLazyImport, .otherFeature "element"] rfl

/-! ## Claim C7: the package scan downgrades failures to warnings -/

/-- The partition loop splits the results into the Documents and the
Warnings, preserving order and losing nothing. -/
theorem partitionDocsWarnings_eq {Doc : Type}
    (results : List (Doc ⊕ Warning)) :
    partitionDocsWarnings results =
      (results.filterMap Sum.getLeft?, results.filterMap Sum.getRight?) := by
  have haux : ∀ (l : List (Doc ⊕ Warning)) (acc : List Doc × List Warning),
      l.foldl (fun acc r => match r with
        | .inl d => (acc.1 ++ [d], acc.2)
        | .inr w => (acc.1, acc.2 ++ [w])) acc =
      (acc.1 ++ l.filterMap Sum.getLeft?,
        acc.2 ++ l.filterMap Sum.getRight?) := by
    intro l
    induction l with
    | nil => intro acc; simp
    | cons r rest ih =>
      intro acc
      cases r with
      | inl d => simp [ih, List.filterMap_cons, Sum.getLeft?, Sum.getRight?]
      | inr w => simp [ih, List.filterMap_cons, Sum.getLeft?, Sum.getRight?]
  simpa [partitionDocsWarnings] using haux results ([], [])

/-- Claim C7 counterexample: a structured failure (a
`WarningCarryingException`) is not downgraded to an `unable-to-analyze`
warning — `_analyzeOrWarning` returns the carried warning with its own
code. -/
theorem analyzeOrWarningKeepsStructuredCode :
    @analyzeOrWarning Unit none "broken.html"
      (.thrown (.warningCarrying sampleCarriedWarning)) =
      .inr sampleCarriedWarning ∧
    sampleCarriedWarning.code ≠ "unable-to-analyze" :=
  ⟨rfl, by decide⟩

/-- Claim C7 as amended: no failure aborts the package scan — an
unstructured failure is downgraded to a Warning with code
`unable-to-analyze`, a structured failure to its carried Warning (keeping
its own code) — and `analyzePackage` partitions the per-file outcomes into
the successful Documents and the Warnings, losing none. -/
theorem analyzePackagePartitions {Doc : Type} (resolver : Option UrlResolver)
    (files : List (String × AnalyzeOutcome Doc)) (url : String)
    (msg : String) (w : Warning) (d : Doc) :
    @analyzeOrWarning Doc resolver url (.thrown (.generic msg)) =
      .inr { code := "unable-to-analyze",
             message := "Unable to analyze file: " ++ msg,
             sourceRange := { file := resolveUrl resolver url,
                              startPos := ⟨0, 0⟩, endPos := ⟨0, 0⟩ },
             severity := .error } ∧
    @analyzeOrWarning Doc resolver url
      (.thrown (.warningCarrying w)) = .inr w ∧
    analyzeOrWarning resolver url (.ok d) = .inl d ∧
    (analyzePackageOutcomes resolver files).1 =
      (files.map fun p => analyzeOrWarning resolver p.1 p.2).filterMap
        Sum.getLeft? ∧
    (analyzePackageOutcomes resolver files).2 =
      (files.map fun p => analyzeOrWarning resolver p.1 p.2).filterMap
        Sum.getRight? := by
  refine ⟨rfl, rfl, rfl, ?_, ?_⟩ <;>
    simp [analyzePackageOutcomes, partitionDocsWarnings_eq]

/-! ## Claim C8: forking shares configuration, replaces the cache -/

/-- Claim C8: `filesChanged` and `clearCaches` fork the context — the new
context wraps the invalidated (respectively brand-new empty) cache, its
generation counter is one greater, and the pipeline configuration
(parsers, scanners, lazy-edge map, loader, resolver) and the telemetry
tracker are carried over shared.  The original context is left untouched:
the fork constructs a fresh record and never writes to its argument, so a
holder of the old context keeps observing the old cache (snapshot
isolation is inherent in the state-passing embedding). -/
theorem forkSharesConfigReplacesCache (ctx : AnalyzerCacheContext)
    (urls : List String) :
    (ctx.filesChanged urls).cache =
      ctx.cache.invalidate (urls.map fun url => resolveUrl ctx.resolver url) ∧
    ctx.clearCaches.cache = AnalysisCache.emptyCache ∧
    (ctx.filesChanged urls).generation = ctx.generation + 1 ∧
    ctx.clearCaches.generation = ctx.generation + 1 ∧
    (ctx.filesChanged urls).parsers = ctx.parsers ∧
    (ctx.filesChanged urls).scanners = ctx.scanners ∧
    (ctx.filesChanged urls).lazyEdges = ctx.lazyEdges ∧
    (ctx.filesChanged urls).loader = ctx.loader ∧
    (ctx.filesChanged urls).resolver = ctx.resolver ∧
    (ctx.filesChanged urls).telemetryTracker = ctx.telemetryTracker ∧
    ctx.clearCaches.parsers = ctx.parsers ∧
    ctx.clearCaches.scanners = ctx.scanners ∧
    ctx.clearCaches.lazyEdges = ctx.lazyEdges ∧
    ctx.clearCaches.loader = ctx.loader ∧
    ctx.clearCaches.resolver = ctx.resolver ∧
    ctx.clearCaches.telemetryTracker = ctx.telemetryTracker :=
  ⟨rfl, rfl, rfl, rfl, rfl, rfl, rfl, rfl,
   rfl, rfl, rfl, rfl, rfl, rfl, rfl, rfl⟩

/-! ## Claim C9: the caches are keyed by resolved URL alone -/

/-- Appending a fresh entry makes it the one a later lookup finds. -/
theorem lookupEntry_append_self {V : Type} (l : List (String × V))
    (k : String) (v : V) (h : lookupEntry l k = none) :
    lookupEntry (l ++ [(k, v)]) k = some v := by
  have hfind : l.find? (fun p => p.1 == k) = none := by
    rcases hf : l.find? (fun p => p.1 == k) with _ | p
    · exact hf
    · rw [lookupEntry, hf] at h
      simp at h
  rw [lookupEntry, List.find?_append, hfind]
  simp

/-- `_parse` touches only the parsed-documents cache. -/
theorem parsePhase_preserves (st : PipelineState) (u : String)
    (c : Option String) :
    (parsePhase st u c).1.resolver = st.resolver ∧
    (parsePhase st u c).1.analyzedDocs = st.analyzedDocs := by
  unfold parsePhase
  split <;> simp

/-- `_scanLocal` touches only the parse and local-scan caches. -/
theorem scanLocalPhase_preserves (st : PipelineState) (u : String)
    (c : Option String) :
    (scanLocalPhase st u c).1.resolver = st.resolver ∧
    (scanLocalPhase st u c).1.analyzedDocs = st.analyzedDocs := by
  have hp := parsePhase_preserves st u c
  unfold scanLocalPhase
  split
  · simp
  · split
    · next st1 e heq =>
      rw [heq] at hp
      simpa using hp
    · next st1 p heq =>
      rw [heq] at hp
      simpa using hp

/-- `_scan` touches no cache beyond its own and its callees'. -/
theorem scanPhase_preserves (st : PipelineState) (u : String)
    (c : Option String) :
    (scanPhase st u c).1.resolver = st.resolver ∧
    (scanPhase st u c).1.analyzedDocs = st.analyzedDocs := by
  have hs := scanLocalPhase_preserves st u c
  unfold scanPhase
  split
  · simp
  · split
    next st1 r heq =>
      rw [heq] at hs
      simpa using hs

/-- A cache hit in `analyzedDocumentPromises` returns the stored result
and changes nothing. -/
theorem analyzeFn_cached (st : PipelineState) (url : String)
    (contents : Option String) (r : Except AnalysisError Document)
    (h : lookupEntry st.analyzedDocs (resolveUrl st.resolver url) = some r) :
    analyzeFn st url contents = (st, r) := by
  unfold analyzeFn
  rw [h]

/-- Claim C9: within one cache generation the result for a resolved URL is
fixed by the first request — a second `analyze` of the same URL with
different explicit contents returns the memoized result of the first call
unchanged (and changes no state), because every phase cache, the parse
cache included, is keyed by the resolved URL alone. -/
theorem analyzeSecondContentsIgnored (st : PipelineState) (url : String)
    (contentsA contentsB : Option String) (st1 : PipelineState)
    (r : Except AnalysisError Document)
    (h : analyzeFn st url contentsA = (st1, r)) :
    analyzeFn st1 url contentsB = (st1, r) := by
  unfold analyzeFn at h
  rcases hc : lookupEntry st.analyzedDocs (resolveUrl st.resolver url)
    with _ | r0
  · rw [hc] at h
    rcases hs : scanPhase st (resolveUrl st.resolver url) contentsA
      with ⟨st2, r2⟩
    rw [hs] at h
    have hp := scanPhase_preserves st (resolveUrl st.resolver url) contentsA
    rw [hs] at hp
    have hpres2 : st2.resolver = st.resolver := hp.1
    have hpana2 : st2.analyzedDocs = st.analyzedDocs := hp.2
    cases r2 with
    | error e =>
      simp only [Prod.mk.injEq] at h
      obtain ⟨rfl, rfl⟩ := h
      exact analyzeFn_cached _ url contentsB (.error e) (by
        show lookupEntry (st2.analyzedDocs ++
            [(resolveUrl st.resolver url, (.error e :
              Except AnalysisError Document))])
          (resolveUrl st2.resolver url) = some (.error e)
        rw [hpres2, hpana2]
        exact lookupEntry_append_self _ _ _ hc)
    | ok sd =>
      simp only [Prod.mk.injEq] at h
      obtain ⟨rfl, rfl⟩ := h
      exact analyzeFn_cached _ url contentsB (.ok ⟨sd⟩) (by
        show lookupEntry (st2.analyzedDocs ++
            [(resolveUrl st.resolver url, (.ok ⟨sd⟩ :
              Except AnalysisError Document))])
          (resolveUrl st2.resolver url) = some (.ok ⟨sd⟩)
        rw [hpres2, hpana2]
        exact lookupEntry_append_self _ _ _ hc)
  · rw [hc] at h
    simp only [Prod.mk.injEq] at h
    obtain ⟨rfl, rfl⟩ := h
    exact analyzeFn_cached st url contentsB r0 hc

/-- Witness for C9: analyzing `a.html` with explicit contents twice, the
second call with different contents, returns the first result and leaves
the state unchanged. -/
theorem analyzeSecondContentsIgnored_witness :
    analyzeFn (analyzeFn samplePipelineState "a.html" (some "contents A")).1
        "a.html" (some "contents B") =
      analyzeFn samplePipelineState "a.html" (some "contents A") :=
  analyzeSecondContentsIgnored samplePipelineState "a.html"
    (some "contents A") (some "contents B")
    (analyzeFn samplePipelineState "a.html" (some "contents A")).1
    (analyzeFn samplePipelineState "a.html" (some "contents A")).2 rfl

/-! ## Claim C10: the load gate and the provided-contents short circuit -/

/-- Claim C10: `load(resolvedUrl, providedContents)` throws the cannot-load
error whenever the loader's `canLoad` is false, explicit contents or not;
when `canLoad` is true and contents are provided (neither null nor
undefined), the provided contents come back and the loader's `load` is
never consulted (the instrumentation flag is false). -/
theorem loadGateAndProvidedContents (loader : UrlLoader)
    (resolvedUrl : String) (providedContents : Option String) (c : String) :
    (loader.canLoad resolvedUrl = false →
      load loader resolvedUrl providedContents =
        .error (.cantLoadUrl resolvedUrl)) ∧
    (loader.canLoad resolvedUrl = true →
      load loader resolvedUrl (some c) = .ok (c, false)) := by
  constructor
  · intro h
    simp [load, h]
  · intro h
    simp [load, h]
